import Mathlib

/-!
Verification of the JsPak archive container (`lib/JsPak.js`, `lib/cryptoHelper.js`)
through a shallow embedding.  Bytes are `Nat` values, Node `Buffer`s are
`List Nat`, JavaScript strings are `List Char`, and the push-based stream
transforms become explicit state machines with a `transform` step and a
`flush` step.  The cryptographic primitives are abstract parameters:

* the AES-256-CTR keystream is a function `ks : List Nat → Nat → Nat`
  sending an IV and a position to a keystream byte (CTR encryption and
  decryption are the byte-wise XOR with that stream);
* HMAC-SHA256 (already keyed with the derived key) is `hmF : List Nat → List Nat`;
* gzip/gunzip are `gzF`/`gunF : List Nat → List Nat`.

Every definition is translated from the JavaScript source; line references
point into `lib/JsPak.js` and `lib/cryptoHelper.js`.
-/

set_option maxHeartbeats 1000000
set_option maxRecDepth 10000

namespace JsPak

/-- One byte of a Node `Buffer`, read with default 0. -/
def byteAt (l : List Nat) (i : Nat) : Nat := l.getD i 0

/-- Model of `Buffer.readUInt16BE` at offset `i`. -/
def u16at (l : List Nat) (i : Nat) : Nat := 256 * byteAt l i + byteAt l (i + 1)

/-- Model of `Buffer.readUInt32BE` at offset `i`. -/
def u32at (l : List Nat) (i : Nat) : Nat :=
  16777216 * byteAt l i + 65536 * byteAt l (i + 1) + 256 * byteAt l (i + 2) + byteAt l (i + 3)

/-- Model of `Buffer.writeUInt16BE`: the two big-endian bytes of `n` (reduced mod 2^16). -/
def u16be (n : Nat) : List Nat := [n / 256 % 256, n % 256]

/-- Model of `Buffer.writeUInt32BE`: the four big-endian bytes of `n` (reduced mod 2^32). -/
def u32be (n : Nat) : List Nat :=
  [n / 16777216 % 256, n / 65536 % 256, n / 256 % 256, n % 256]

/-- Node `Buffer.prototype.slice(start, end)`: a negative index counts from the
end, both indices are clamped to `[0, length]`, and `end < start` yields an
empty buffer. -/
def jsSlice (l : List Nat) (start endI : Int) : List Nat :=
  let n : Int := l.length
  let s := if start < 0 then max (n + start) 0 else min start n
  let e := if endI < 0 then max (n + endI) 0 else min endI n
  (l.take e.toNat).drop s.toNat

/-- Concatenation of a list of stream chunks. -/
def concatChunks (l : List (List Nat)) : List Nat := l.foldr (· ++ ·) []

/-- Association-list lookup, the model of `Map.prototype.get` (and of reading a
property of the `headers` object). -/
def hlookup {α : Type} : List (List Nat × α) → List Nat → Option α
  | [], _ => none
  | (k, v) :: rest, key => if k = key then some v else hlookup rest key

/-- Model of `Map.prototype.set`: updating an existing key keeps its insertion position,
a new key is appended. -/
def mapSet {α : Type} : List (List Nat × α) → List Nat → α → List (List Nat × α)
  | [], key, v => [(key, v)]
  | (k, w) :: rest, key, v =>
    if k = key then (key, v) :: rest else (k, w) :: mapSet rest key v

/-- UTF-8 encoding of one character. -/
def utf8Char (c : Char) : List Nat :=
  let n := c.toNat
  if n < 128 then [n]
  else if n < 2048 then [192 + n / 64, 128 + n % 64]
  else if n < 65536 then [224 + n / 4096, 128 + n / 64 % 64, 128 + n % 64]
  else [240 + n / 262144, 128 + n / 4096 % 64, 128 + n / 64 % 64, 128 + n % 64]

/-- UTF-8 bytes of a JavaScript string (`Buffer.from(str)` / `buffer.write(str)`;
`Buffer.byteLength(str)` is the length of this list). -/
def utf8Bytes (s : List Char) : List Nat := s.foldr (fun c acc => utf8Char c ++ acc) []

/-- Byte list of a Lean string literal (used for the fixed ASCII key names of
the source, e.g. "metaHmac"). -/
def strB (s : String) : List Nat := utf8Bytes s.toList

/- ===== cryptoHelper.js (current version, the unnamed part with DeHmacStream) ===== -/

/-- AES-256-CTR `update`: byte-wise XOR with the abstract keystream `ksf`,
starting at keystream position `p`.  `final()` is empty for CTR mode. -/
def ctrXor (ksf : Nat → Nat) : Nat → List Nat → List Nat
  | _, [] => []
  | p, b :: rest => (Nat.xor (b % 256) (ksf p % 256)) :: ctrXor ksf (p + 1) rest

/-- Model of `helper.encryptBuffer`: a fresh 16-byte IV (a parameter here, standing for
`crypto.randomBytes(16)`) followed by the CTR ciphertext. -/
def encryptBuffer (ks : List Nat → Nat → Nat) (iv : List Nat) (buffer : List Nat) : List Nat :=
  iv ++ ctrXor (ks iv) 0 buffer

/-- Model of `helper.decryptBuffer`: the first 16 bytes are the IV, the rest is decrypted. -/
def decryptBuffer (ks : List Nat → Nat → Nat) (buffer : List Nat) : List Nat :=
  let initVector := jsSlice buffer 0 16
  let payload := jsSlice buffer 16 buffer.length
  ctrXor (ks initVector) 0 payload

/-- Model of `helper.appendHmacBuffer`: pass-through plus the 32-byte digest. -/
def appendHmacBuffer (hmF : List Nat → List Nat) (buffer : List Nat) : List Nat :=
  buffer ++ hmF buffer

/-- Model of `helper.deHmacBuffer`: strip the last `hmacSize = 32` bytes with
`buffer.slice(0, buffer.length - hmacSize)`; when `verify` is set, compare the
recomputed digest with `buffer.slice(buffer.length - hmacSize)` and throw on
mismatch. -/
def deHmacBuffer (hmF : List Nat → List Nat) (buffer : List Nat) (verify : Bool) :
    Except String (List Nat) :=
  let outputBuffer := jsSlice buffer 0 ((buffer.length : Int) - 32)
  if verify then
    if hmF outputBuffer = jsSlice buffer ((buffer.length : Int) - 32) (buffer.length : Int) then
      .ok outputBuffer
    else
      .error "HMAC mismatch! The file has been tampered!"
  else
    .ok outputBuffer

/-- State of `DecipherStream`: the buffered IV bytes and, once created, the
decipher (represented by the IV it was created with and its keystream
position). -/
structure DecipherStream where
  initVector : Option (List Nat)
  decipher : Option (List Nat × Nat)
deriving DecidableEq, Repr

/-- Freshly constructed `DecipherStream`. -/
def DecipherStream.start : DecipherStream := ⟨none, none⟩

/-- Model of `DecipherStream.prototype._transform`.  Note the source overwrites
`this.initVector` with `buffer.slice(0, remaining)` instead of appending to
the bytes already buffered. -/
def DecipherStream.transform (ks : List Nat → Nat → Nat) (s : DecipherStream)
    (buffer : List Nat) : DecipherStream × List (List Nat) :=
  match s.decipher with
  | none =>
    let ivLen := match s.initVector with | some iv => iv.length | none => 0
    let remaining : Int := 16 - (ivLen : Int)
    let iv2 := jsSlice buffer 0 remaining
    if iv2.length < 16 then
      ({ initVector := some iv2, decipher := none }, [])
    else if (buffer.length : Int) ≤ remaining then
      ({ initVector := some iv2, decipher := some (iv2, 0) }, [])
    else
      let buf2 := jsSlice buffer remaining (buffer.length : Int)
      ({ initVector := some iv2, decipher := some (iv2, buf2.length) },
        [ctrXor (ks iv2) 0 buf2])
  | some d =>
    ({ s with decipher := some (d.1, d.2 + buffer.length) },
      [ctrXor (ks d.1) d.2 buffer])

/-- Model of `DecipherStream.prototype._flush`: pushes `decipher.final()` (empty for
CTR) when the decipher exists, otherwise nothing; never fails. -/
def DecipherStream.flush (s : DecipherStream) : List (List Nat) :=
  match s.decipher with
  | none => []
  | some _ => [[]]

/-- Feed a list of chunks through a fresh `DecipherStream`, then flush;
returns the emitted chunks. -/
def DecipherStream.runChunks (ks : List Nat → Nat → Nat) (chunks : List (List Nat)) :
    List (List Nat) :=
  let r := chunks.foldl
    (fun (acc : DecipherStream × List (List Nat)) c =>
      let t := DecipherStream.transform ks acc.1 c
      (t.1, acc.2 ++ t.2))
    (DecipherStream.start, [])
  r.2 ++ DecipherStream.flush r.1

/-- Total bytes emitted by a fresh `DecipherStream` on the given chunks. -/
def DecipherStream.run (ks : List Nat → Nat → Nat) (chunks : List (List Nat)) : List Nat :=
  concatChunks (DecipherStream.runChunks ks chunks)

/-- State of `DeHmacStream`: the verify flag, the bytes fed to
`this.hmac.update` so far, and the suspended `lastBuffer`. -/
structure DeHmacStream where
  verify : Bool
  acc : List Nat
  lastBuffer : Option (List Nat)
deriving DecidableEq, Repr

/-- Freshly constructed `DeHmacStream`. -/
def DeHmacStream.start (verify : Bool) : DeHmacStream := ⟨verify, [], none⟩

/-- Model of `DeHmacStream.prototype._transform`.  When a chunk shorter than
`hmacSize = 32` arrives while a chunk is suspended, the source runs
`Buffer.concat( this.lastBuffer , buffer )`; `Buffer.concat` demands an Array
as its first argument, so Node raises a TypeError there and the stream fails. -/
def DeHmacStream.transform (s : DeHmacStream) (buffer : List Nat) :
    Except String (DeHmacStream × List (List Nat)) :=
  if 32 ≤ buffer.length then
    match s.lastBuffer with
    | some lb =>
      let acc2 := if s.verify then s.acc ++ lb else s.acc
      .ok ({ s with acc := acc2, lastBuffer := some buffer }, [lb])
    | none => .ok ({ s with lastBuffer := some buffer }, [])
  else
    match s.lastBuffer with
    | some _ => .error "TypeError: the list argument must be an instance of Array"
    | none => .ok ({ s with lastBuffer := some buffer }, [])

/-- Model of `DeHmacStream.prototype._flush`: needs at least 32 suspended bytes, splits
the final 32 bytes off, verifies them when in verify mode, and emits the rest. -/
def DeHmacStream.flush (hmF : List Nat → List Nat) (s : DeHmacStream) :
    Except String (List (List Nat)) :=
  match s.lastBuffer with
  | none => .error "Bad stream: missing HMAC."
  | some lb =>
    if lb.length < 32 then .error "Bad stream: missing HMAC."
    else
      let toSend := jsSlice lb 0 ((lb.length : Int) - 32)
      if s.verify then
        let hmacBuffer := jsSlice lb ((lb.length : Int) - 32) (lb.length : Int)
        if hmF (s.acc ++ toSend) = hmacBuffer then .ok [toSend]
        else .error "Bad stream: HMAC mismatch! The stream has been tampered!"
      else .ok [toSend]

/-- Feed chunks through `DeHmacStream.transform`, stopping at the first error. -/
def DeHmacStream.runLoop : List (List Nat) → DeHmacStream → List (List Nat) →
    Except String (DeHmacStream × List (List Nat))
  | [], s, out => .ok (s, out)
  | c :: rest, s, out =>
    match DeHmacStream.transform s c with
    | .error e => .error e
    | .ok t => DeHmacStream.runLoop rest t.1 (out ++ t.2)

/-- Feed a list of chunks through a fresh `DeHmacStream`, then flush; returns
the emitted chunks or the first stream error. -/
def DeHmacStream.runChunks (verify : Bool) (hmF : List Nat → List Nat)
    (chunks : List (List Nat)) : Except String (List (List Nat)) :=
  match DeHmacStream.runLoop chunks (DeHmacStream.start verify) [] with
  | .error e => .error e
  | .ok (s, out) =>
    match DeHmacStream.flush hmF s with
    | .error e => .error e
    | .ok fin => .ok (out ++ fin)

/-- Total bytes emitted by a fresh `DeHmacStream` on the given chunks. -/
def DeHmacStream.run (verify : Bool) (hmF : List Nat → List Nat)
    (chunks : List (List Nat)) : Except String (List Nat) :=
  match DeHmacStream.runChunks verify hmF chunks with
  | .error e => .error e
  | .ok out => .ok (concatChunks out)

/-- Concrete keystream used when a witness only needs some keystream. -/
def ks0 : List Nat → Nat → Nat := fun _ _ => 0

/-- Concrete 32-byte digest function used when a witness only needs some HMAC. -/
def hm0 : List Nat → List Nat := fun _ => List.replicate 32 0

/-- A second concrete digest function, everywhere different from `hm0`. -/
def hm1 : List Nat → List Nat := fun _ => List.replicate 32 1

/-- Identity stand-in for gzip/gunzip where the flags keep them disabled. -/
def gzId : List Nat → List Nat := fun b => b

/- ===== JsPak.js block-format constants (lines 878-928) ===== -/

def MASK_TYPE : Nat := 3

def FLAG_TYPE_HEADER : Nat := 0

def FLAG_TYPE_INDEX : Nat := 1

def FLAG_TYPE_DATABLOCK : Nat := 2

def FLAG_TYPE_DIRECTORY : Nat := 3

def VALUE_BUFFER_MAX_SIZE : Nat := 65536

def HEADER_FIXED_SIZE : Nat := 4

def INDEX_FIXED_SIZE : Nat := 29

def KEY_BUFFER_MAX_SIZE : Nat := 65536

def KEY_MAX_SIZE : Nat := KEY_BUFFER_MAX_SIZE - 1024

def FLAG_DELETED : Nat := 4

def FLAG_GZIP : Nat := 8

def FLAG_ENCRYPTION : Nat := 32

def FLAG_HMAC : Nat := 128

def DIRECTORY_FIXED_SIZE : Nat := 21

def DATABLOCK_FIXED_SIZE : Nat := 5

/-- The ASCII bytes of the magic "JPK". -/
def jpkMagic : List Nat := [74, 80, 75]

def metaHmacKeyB : List Nat := strB "metaHmac"

def majorVersionKeyB : List Nat := strB "majorVersion"

def minorVersionKeyB : List Nat := strB "minorVersion"

/-- KNOWN_HEADERS value types (lines 782-786): `majorVersion`/`minorVersion`
are uint8, `metaHmac` is a buffer; unknown keys default to buffer in
`castHeader`. -/
inductive HeaderType
  | uint8
  | buffer
deriving DecidableEq, Repr

def knownHeaderType (key : List Nat) : HeaderType :=
  if key = majorVersionKeyB ∨ key = minorVersionKeyB then .uint8 else .buffer

/-- Model of `castHeader` (lines 793-821): stores the decoded value under the key; a
`uint8` header whose value size is not 1 is dropped (early `return`).  We keep
the raw value bytes where the source stores the casted number — presence and
bytes are what the claims use. -/
def castHeader (headers : List (List Nat × List Nat)) (key value : List Nat) :
    List (List Nat × List Nat) :=
  if key = [] then headers
  else match knownHeaderType key with
    | .uint8 => if value.length ≠ 1 then headers else mapSet headers key value
    | .buffer => mapSet headers key value

/-- In-memory index entry as decoded by `parseMeta` (lines 246-267).
`mtimeB`/`atimeB` keep the raw 8-byte IEEE-754 cells read by `readDoubleBE`,
which we treat as opaque; `verified`/`hmacMatch` are the transient verify
state used by `getBuffer`/`getStreamFromIndex` (`false`/`none` model the
JavaScript `undefined` of a fresh entry). -/
structure IndexEntry where
  offset : Nat
  size : Nat
  mode : Nat
  mtimeB : List Nat
  atimeB : List Nat
  gzip : Bool
  encryption : Bool
  hmac : Bool
  key : List Nat
  verified : Bool := false
  hmacMatch : Option Bool := none
deriving DecidableEq, Repr

/-- Directory entry as decoded by `parseMeta` (lines 283-300). -/
structure DirectoryEntry where
  mode : Nat
  mtimeB : List Nat
  atimeB : List Nat
  encryption : Bool
  key : List Nat
deriving DecidableEq, Repr

/-- State accumulated by one `parseMeta` walk: the headers object, the two
maps, and the concatenation of all chunks fed to `hmac.update` (the meta HMAC
digest is `hmF` of this list). -/
structure MetaState where
  headers : List (List Nat × List Nat)
  indexMap : List (List Nat × IndexEntry)
  directoryMap : List (List Nat × DirectoryEntry)
  hmacInput : List Nat
deriving DecidableEq, Repr

def meta0 : MetaState := ⟨[], [], [], []⟩

/-- One iteration of the `parseMeta` loop (lines 201-322) after the flags byte
has been read: `rest` is the file suffix after the flags byte; the result is
the number of bytes consumed beyond the flags byte plus the updated state.
The final `else` is the datablock arm: `flags % 4` has exactly the four values
handled by the source's else-if chain. -/
def parseStep (ks : List Nat → Nat → Nat) (loadMeta computeHmac : Bool)
    (flags : Nat) (rest : List Nat) (st : MetaState) : Nat × MetaState :=
  let type := flags % 4
  if type = FLAG_TYPE_HEADER then
    let keySize := byteAt rest 0
    let valueSize := u16at rest 1
    let key := (rest.drop 3).take keySize
    let value := ((rest.drop 3).drop keySize).take valueSize
    let st1 := if loadMeta then { st with headers := castHeader st.headers key value } else st
    let st2 := if computeHmac ∧ ¬ key = metaHmacKeyB then
        { st1 with hmacInput := st1.hmacInput ++ (flags :: rest.take 3) ++ key ++ value }
      else st1
    (3 + keySize + valueSize, st2)
  else if type = FLAG_TYPE_INDEX then
    let keySize := u16at rest 26
    let keyRaw := (rest.drop 28).take keySize
    let st1 := if loadMeta then
        let enc := Nat.testBit flags 5
        let entry : IndexEntry :=
          { offset := u32at rest 0, size := u32at rest 4, mode := u16at rest 8,
            mtimeB := (rest.drop 10).take 8, atimeB := (rest.drop 18).take 8,
            gzip := Nat.testBit flags 3, encryption := enc, hmac := Nat.testBit flags 7,
            key := if enc then decryptBuffer ks keyRaw else keyRaw }
        { st with indexMap := mapSet st.indexMap entry.key entry }
      else st
    let st2 := if computeHmac then
        { st1 with hmacInput := st1.hmacInput ++ (flags :: rest.take 28) ++ keyRaw }
      else st1
    (28 + keySize, st2)
  else if type = FLAG_TYPE_DIRECTORY then
    let keySize := u16at rest 18
    let keyRaw := (rest.drop 20).take keySize
    let st1 := if loadMeta then
        let enc := Nat.testBit flags 5
        let dir : DirectoryEntry :=
          { mode := u16at rest 0, mtimeB := (rest.drop 2).take 8,
            atimeB := (rest.drop 10).take 8, encryption := enc,
            key := if enc then decryptBuffer ks keyRaw else keyRaw }
        { st with directoryMap := mapSet st.directoryMap dir.key dir }
      else st
    let st2 := if computeHmac then
        { st1 with hmacInput := st1.hmacInput ++ (flags :: rest.take 20) ++ keyRaw }
      else st1
    (20 + keySize, st2)
  else
    let dataBlockSize := u32at rest 0
    let st1 := if computeHmac then
        { st with hmacInput := st.hmacInput ++ (flags :: rest.take 4) }
      else st
    (4 + dataBlockSize, st1)

/-- The `parseMeta` walk over the bytes after the magic, with fuel; every
iteration consumes at least the flags byte, so `bytes.length` fuel suffices. -/
def parseLoop (ks : List Nat → Nat → Nat) (loadMeta computeHmac : Bool) :
    Nat → List Nat → MetaState → MetaState
  | _, [], st => st
  | 0, _ :: _, st => st
  | fuel + 1, flags :: rest, st =>
    let r := parseStep ks loadMeta computeHmac flags rest st
    parseLoop ks loadMeta computeHmac fuel (rest.drop r.1) r.2

/-- Model of `parseMeta(loadMeta, computeHmac)` over a whole file: the walk starts at
position 3 (after the `JPK` magic) and ends at EOF. -/
def parseMeta (ks : List Nat → Nat → Nat) (loadMeta computeHmac : Bool)
    (file : List Nat) (st : MetaState) : MetaState :=
  parseLoop ks loadMeta computeHmac (file.drop 3).length (file.drop 3) st

/- ===== On-disk record encodings, for format-level theorems ===== -/

/-- The fixed 28 bytes of an index record after the flags byte. -/
def idxFixed (offset size mode : Nat) (mtimeB atimeB : List Nat) (keyLen : Nat) : List Nat :=
  u32be offset ++ (u32be size ++ (u16be mode ++ (mtimeB ++ (atimeB ++ u16be keyLen))))

/-- The fixed 20 bytes of a directory record after the flags byte. -/
def dirFixed (mode : Nat) (mtimeB atimeB : List Nat) (keyLen : Nat) : List Nat :=
  u16be mode ++ (mtimeB ++ (atimeB ++ u16be keyLen))

/-- A meta record as the writer serialises it.  Header records always carry
flags byte 0 and datablocks flags byte 2 (`addHeader` line 360, `add` line
406); index/directory records carry their full flags byte. -/
inductive JRec where
  | header (key value : List Nat)
  | index (flags offset size mode : Nat) (mtimeB atimeB key : List Nat)
  | directory (flags mode : Nat) (mtimeB atimeB key : List Nat)
  | datablock (body : List Nat)
deriving DecidableEq, Repr

/-- The flags byte of a record. -/
def JRec.flagsByte : JRec → Nat
  | .header _ _ => 0
  | .index flags _ _ _ _ _ _ => flags
  | .directory flags _ _ _ _ => flags
  | .datablock _ => 2

/-- The bytes of a record after its flags byte. -/
def JRec.body : JRec → List Nat
  | .header key value => key.length :: (u16be value.length ++ (key ++ value))
  | .index _ offset size mode mtimeB atimeB key =>
      idxFixed offset size mode mtimeB atimeB key.length ++ key
  | .directory _ mode mtimeB atimeB key => dirFixed mode mtimeB atimeB key.length ++ key
  | .datablock body => u32be body.length ++ body

/-- Full serialisation of a record. -/
def JRec.encode (r : JRec) : List Nat := r.flagsByte :: r.body

/-- Serialisation of a record sequence. -/
def encodeJRecs (rs : List JRec) : List Nat := rs.foldr (fun r acc => r.encode ++ acc) []

/-- Well-formedness: the length fields fit their cells and the time cells are
8 bytes, so that parsing inverts encoding. -/
def JRec.WF : JRec → Prop
  | .header key value => key.length < 256 ∧ value.length < 65536
  | .index flags offset size mode mtimeB atimeB key =>
      flags % 4 = 1 ∧ offset < 4294967296 ∧ size < 4294967296 ∧ mode < 65536 ∧
      mtimeB.length = 8 ∧ atimeB.length = 8 ∧ key.length < 65536
  | .directory flags mode mtimeB atimeB key =>
      flags % 4 = 3 ∧ mode < 65536 ∧ mtimeB.length = 8 ∧ atimeB.length = 8 ∧
      key.length < 65536
  | .datablock body => body.length < 4294967296

/-- The state change `parseMeta` performs for one well-formed record. -/
def applyJRec (ks : List Nat → Nat → Nat) (loadMeta computeHmac : Bool) :
    JRec → MetaState → MetaState
  | .header key value, st =>
    let st1 := if loadMeta then { st with headers := castHeader st.headers key value } else st
    if computeHmac ∧ ¬ key = metaHmacKeyB then
      { st1 with hmacInput :=
          st1.hmacInput ++ (0 :: (key.length :: u16be value.length)) ++ key ++ value }
    else st1
  | .index flags offset size mode mtimeB atimeB key, st =>
    let st1 := if loadMeta then
        let enc := Nat.testBit flags 5
        let entry : IndexEntry :=
          { offset := offset, size := size, mode := mode, mtimeB := mtimeB, atimeB := atimeB,
            gzip := Nat.testBit flags 3, encryption := enc, hmac := Nat.testBit flags 7,
            key := if enc then decryptBuffer ks key else key }
        { st with indexMap := mapSet st.indexMap entry.key entry }
      else st
    if computeHmac then
      { st1 with hmacInput :=
          st1.hmacInput ++ (flags :: idxFixed offset size mode mtimeB atimeB key.length) ++ key }
    else st1
  | .directory flags mode mtimeB atimeB key, st =>
    let st1 := if loadMeta then
        let enc := Nat.testBit flags 5
        let dir : DirectoryEntry :=
          { mode := mode, mtimeB := mtimeB, atimeB := atimeB, encryption := enc,
            key := if enc then decryptBuffer ks key else key }
        { st with directoryMap := mapSet st.directoryMap dir.key dir }
      else st
    if computeHmac then
      { st1 with hmacInput :=
          st1.hmacInput ++ (flags :: dirFixed mode mtimeB atimeB key.length) ++ key }
    else st1
  | .datablock body, st =>
    if computeHmac then
      { st with hmacInput := st.hmacInput ++ (2 :: u32be body.length) }
    else st

/-- Folded `applyJRec` over a record sequence. -/
def applyJRecs (ks : List Nat → Nat → Nat) (loadMeta computeHmac : Bool)
    (rs : List JRec) (st : MetaState) : MetaState :=
  rs.foldl (fun s r => applyJRec ks loadMeta computeHmac r s) st

/-- Model of `JsPak.prototype.has` (line 676): membership in the index map. -/
def hasKey (indexMap : List (List Nat × IndexEntry)) (key : List Nat) : Bool :=
  (hlookup indexMap key).isSome

/-- Model of `JsPak.prototype.keys` (line 682): the index-map keys in insertion order. -/
def keysOf (indexMap : List (List Nat × IndexEntry)) : List (List Nat) :=
  indexMap.map Prod.fst

/-- The entries the `extract` file loop iterates over
(`for ( index of this.indexMap.values() )`, line 592). -/
def extractIterates (indexMap : List (List Nat × IndexEntry)) : List IndexEntry :=
  indexMap.map Prod.snd

/- ===== Node path module (posix), for relative paths ===== -/

/-- Split a path on '/'.  An empty string gives one empty segment, which
normalisation drops — matching `path.join` ignoring empty arguments. -/
def splitSlash : List Char → List (List Char)
  | [] => [[]]
  | c :: rest =>
    let r := splitSlash rest
    if c = '/' then [] :: r
    else match r with
      | [] => [[c]]
      | h :: t => (c :: h) :: t

/-- One step of posix path normalisation over a reversed segment stack: empty
and `.` segments are dropped; `..` pops a non-`..` segment and is kept
otherwise (relative paths keep leading `..`s). -/
def normStep (acc : List (List Char)) (seg : List Char) : List (List Char) :=
  if seg = [] ∨ seg = ['.'] then acc
  else if seg = ['.', '.'] then
    match acc with
    | [] => [seg]
    | a :: rest => if a = ['.', '.'] then seg :: acc else rest
  else seg :: acc

/-- Join segments with '/'. -/
def joinSegs : List (List Char) → List Char
  | [] => []
  | [s] => s
  | s :: rest => s ++ '/' :: joinSegs rest

/-- Model of `path.join` over relative path arguments (posix): concatenate, split on
'/', normalise, and return "." when nothing remains. -/
def pjoinList (parts : List (List Char)) : List Char :=
  let segs := ((parts.map splitSlash).foldr (· ++ ·) []).foldl normStep []
  if segs = [] then ['.'] else joinSegs segs.reverse

/-- Model of `path.dirname` (posix) for the relative slash-normalised paths produced
by `pjoinList`: everything before the last '/', or "." when there is none. -/
def pdirname (p : List Char) : List Char :=
  match splitSlash p with
  | [] => ['.']
  | [_] => ['.']
  | segs => joinSegs segs.dropLast

/-- Model of `path.isAbsolute` (posix). -/
def isAbsolutePath : List Char → Bool
  | [] => false
  | c :: _ => c = '/'

/-- Does the string start with the pattern (first argument)? -/
def startsBy : List Char → List Char → Bool
  | [], _ => true
  | _ :: _, [] => false
  | a :: as, b :: bs => a = b && startsBy as bs

/-- Model of `String.prototype.includes`: does the pattern occur as a substring? -/
def hasSub (pat : List Char) : List Char → Bool
  | [] => startsBy pat []
  | c :: rest => startsBy pat (c :: rest) || hasSub pat rest

/- ===== Writer model: the JsPak archive object and its append operations ===== -/

/-- In-memory entry the writer keeps in `indexMap` (`add`, line 509). -/
structure WEntry where
  key : List Nat
  keySize : Nat
  gzip : Bool
  encryption : Bool
  hmac : Bool
  mode : Nat
  mtimeB : List Nat
  atimeB : List Nat
  offset : Nat
  size : Nat
deriving DecidableEq, Repr

/-- In-memory entry the writer keeps in `directoryMap` (lines 446 and 473;
the in-memory directory marker carries no `encryption` property, which is
falsy). -/
structure WDir where
  key : List Nat
  keySize : Nat
  mode : Nat
  mtimeB : List Nat
  atimeB : List Nat
  encryption : Bool
deriving DecidableEq, Repr

/-- The archive object (constructor lines 89-104). -/
structure Pak where
  file : List Nat
  eof : Nat
  isNew : Bool
  coreHeadersAdded : Bool
  loaded : Bool
  headers : List (List Nat × List Nat)
  indexMap : List (List Nat × WEntry)
  directoryMap : List (List Nat × WDir)
  metaHmac : Option (List Nat)
deriving DecidableEq, Repr

/-- Model of `open(true)` on a missing file (lines 122-130): create it, write the
magic, `eof = 3`, `isNew`, `loaded = true`. -/
def freshPak : Pak :=
  { file := jpkMagic, eof := 3, isNew := true, coreHeadersAdded := false, loaded := true,
    headers := [], indexMap := [], directoryMap := [], metaHmac := none }

/-- Model of `file.write(buffer, 0, len, position)`: overwrite at `position`; every
write the source performs is at a position ≤ the current file length, where
this is exact. -/
def writeAt (f : List Nat) (off : Nat) (b : List Nat) : List Nat :=
  f.take off ++ b ++ f.drop (off + b.length)

/-- A write at the EOF pointer, advancing it (the `this.eof +=` pattern). -/
def pushBytes (st : Pak) (b : List Nat) : Pak :=
  { st with file := writeAt st.file st.eof b, eof := st.eof + b.length }

/-- A parsed index entry as the writer map sees it.  A parsed entry has no
`keySize` (that assignment is commented out in the source, line 253); the
writer always overwrites its own entries before reading them, so the
placeholder 0 is never consulted. -/
def toWEntry (e : IndexEntry) : WEntry :=
  { key := e.key, keySize := 0, gzip := e.gzip, encryption := e.encryption, hmac := e.hmac,
    mode := e.mode, mtimeB := e.mtimeB, atimeB := e.atimeB, offset := e.offset,
    size := e.size }

/-- A parsed directory entry as the writer map sees it. -/
def toWDir (d : DirectoryEntry) : WDir :=
  { key := d.key, keySize := 0, mode := d.mode, mtimeB := d.mtimeB, atimeB := d.atimeB,
    encryption := d.encryption }

/-- Model of `load()` (line 148): parse the meta records and mark loaded (the meta
HMAC verification option is off, as when `options.verify` is unset). -/
def loadPak (ks : List Nat → Nat → Nat) (st : Pak) : Pak :=
  if st.loaded then st
  else
    let m := parseMeta ks true false st.file
      { headers := st.headers, indexMap := [], directoryMap := [], hmacInput := [] }
    { st with
      loaded := true, headers := m.headers,
      indexMap := m.indexMap.map (fun p => (p.1, toWEntry p.2)),
      directoryMap := m.directoryMap.map (fun p => (p.1, toWDir p.2)) }

/-- Model of `computeMetaHmac()` (line 156): `parseMeta(!loaded, true)`; stores the
digest and, when it also loaded the meta, marks loaded. -/
def computeMetaHmac (ks : List Nat → Nat → Nat) (hmF : List Nat → List Nat) (st : Pak) :
    Pak :=
  let m := parseMeta ks (!st.loaded) true st.file
    { headers := st.headers, indexMap := [], directoryMap := [], hmacInput := [] }
  let st1 := if st.loaded then st
    else { st with
           loaded := true, headers := m.headers,
           indexMap := m.indexMap.map (fun p => (p.1, toWEntry p.2)),
           directoryMap := m.directoryMap.map (fun p => (p.1, toWDir p.2)) }
  { st1 with metaHmac := some (hmF m.hmacInput) }

/-- JavaScript header values: numbers or Buffers. -/
inductive HVal where
  | num (n : Nat)
  | buf (b : List Nat)
deriving DecidableEq, Repr

/-- Model of `headerValueToBuffer` (lines 825-860) on KNOWN_HEADERS: uint8 for the
version headers (a number outside 0..255 makes `writeUInt8` throw; a
non-number coerces to 0), buffer for `metaHmac` (must be a Buffer of at most
`VALUE_BUFFER_MAX_SIZE` bytes; we also fold in the `writeUInt16BE` limit of
65535 that `addHeader` would hit on a larger value).  Unknown keys throw. -/
def headerValueToBuffer (key : List Nat) (value : HVal) : Except String (List Nat) :=
  if key = majorVersionKeyB ∨ key = minorVersionKeyB then
    match value with
    | .num n => if 255 < n then .error "RangeError" else .ok [n]
    | .buf _ => .ok [0]
  else if key = metaHmacKeyB then
    match value with
    | .buf b => if 65535 < b.length then .error "Header metaHmac too big." else .ok b
    | .num _ => .error "Header metaHmac should be a Buffer."
  else .error "Unknown header."

/-- Error propagation of the source's sequential awaits: a thrown error stops
the remaining steps, keeping the state already mutated. -/
def seqThen (r : Pak × Option String) (f : Pak → Pak × Option String) : Pak × Option String :=
  match r with
  | (st, some e) => (st, some e)
  | (st, none) => f st

/-- The write-and-record part of `addHeader` (lines 353-372): encode the
value, write the 4-byte fixed part, the key bytes and the value bytes at EOF,
then record the header (we record the encoded bytes; only presence and bytes
are consulted). -/
def addHeaderRecord (st : Pak) (key : List Nat) (value : HVal) : Pak × Option String :=
  match headerValueToBuffer key value with
  | .error e => (st, some e)
  | .ok valueBuffer =>
    let fixed := FLAG_TYPE_HEADER :: (key.length :: u16be valueBuffer.length)
    let st1 := pushBytes st fixed
    let st2 := pushBytes st1 key
    let st3 := pushBytes st2 valueBuffer
    ({ st3 with headers := mapSet st3.headers key valueBuffer }, none)

/-- Model of `addCoreHeaders` (lines 339-345): on a new archive, append the
`majorVersion` and `minorVersion` headers once.  The version numbers come
from package.json (not among the sources), so they are parameters. -/
def addCoreHeaders (ks : List Nat → Nat → Nat) (majorV minorV : Nat) (st : Pak) :
    Pak × Option String :=
  if !st.isNew || st.coreHeadersAdded then (st, none)
  else
    let st1 := loadPak ks st
    let st2 := { st1 with coreHeadersAdded := true }
    seqThen (addHeaderRecord st2 majorVersionKeyB (.num majorV))
      (fun st3 => addHeaderRecord st3 minorVersionKeyB (.num minorV))

/-- Model of `addHeader(key, value, internal)` (line 349): load if needed, trigger the
core headers on the first external call on a new archive, then write. -/
def addHeader (ks : List Nat → Nat → Nat) (majorV minorV : Nat) (st : Pak)
    (key : List Nat) (value : HVal) (internal : Bool) : Pak × Option String :=
  let st1 := loadPak ks st
  seqThen (if !internal && st1.isNew && !st1.coreHeadersAdded then
      addCoreHeaders ks majorV minorV st1
    else (st1, none))
    (fun st2 => addHeaderRecord st2 key value)

/-- Model of `addMetaHmac()` (lines 175-181): ensure the digest is computed, fail when
a `metaHmac` header already exists, otherwise add the header internally. -/
def addMetaHmac (ks : List Nat → Nat → Nat) (hmF : List Nat → List Nat)
    (majorV minorV : Nat) (st : Pak) : Pak × Option String :=
  let st1 := if !st.loaded || st.metaHmac.isNone then computeMetaHmac ks hmF st else st
  if (hlookup st1.headers metaHmacKeyB).isSome then
    (st1, some "The meta HMAC header is already existing!")
  else
    addHeader ks majorV minorV st1 metaHmacKeyB (.buf (st1.metaHmac.getD [])) true

/-- Model of `writeDoubleBE` always fills an 8-byte cell; times are carried as their
cells and normalised to 8 bytes at write time. -/
def pad8 (l : List Nat) : List Nat := (l ++ List.replicate 8 0).take 8

/-- One entry of the `add` call, covering the in-memory branches of the
source (a `key` plus `buffer`/`stream` data, or a `directory` marker; an
entry with no data that is not a directory is the logged-and-skipped bad
entry).  The `filePath` branch reads the file system and is outside this
model.  Times are carried as their 8-byte `writeDoubleBE` cells. -/
structure AddEntry where
  key : List Char
  pfx : List Char
  data : Option (List Nat)
  isDir : Bool
  modeO : Option Nat
  mtimeO : Option (List Nat)
  atimeO : Option (List Nat)
  gzipO : Option Bool
  encO : Option Bool
  hmacO : Option Bool
deriving DecidableEq, Repr

/-- The `options` record of `add`: prefix, default pipeline flags, and the
8-byte cell of `new Date()` at call time. -/
structure AddOpts where
  pfx : List Char
  gzip : Bool
  encryption : Bool
  hmac : Bool
  nowB : List Nat
deriving DecidableEq, Repr

/-- The bytes the `(gzip?) → (CipherStream?) → (AppendHmacStream?)` pipeline
writes for one source of the given content: gzip first, then the IV plus the
CTR ciphertext, then the trailing 32-byte digest. -/
def storedWindow (gzF : List Nat → List Nat) (ks : List Nat → Nat → Nat) (iv : List Nat)
    (hmF : List Nat → List Nat) (gz enc hm : Bool) (content : List Nat) : List Nat :=
  let a := if gz then gzF content else content
  let b := if enc then encryptBuffer ks iv a else a
  if hm then appendHmacBuffer hmF b else b

/-- Accumulator of the `add` entry loop. -/
structure AddAcc where
  st : Pak
  keys : List (List Nat)
  dirKeys : List (List Nat)
  dbSize : Nat
  err : Option String
deriving Repr

/-- One iteration of the entry loop of `add` (lines 414-510) for the
in-memory branches; a raised error stops the loop for the remaining
entries. -/
def addEntryStep (gzF : List Nat → List Nat) (ks : List Nat → Nat → Nat) (iv : List Nat)
    (hmF : List Nat → List Nat) (opts : AddOpts) (acc : AddAcc) (e : AddEntry) : AddAcc :=
  if acc.err.isSome then acc
  else
    let gz := e.gzipO.getD opts.gzip
    let enc := e.encO.getD opts.encryption
    let hm := e.hmacO.getD opts.hmac
    let key := pjoinList [opts.pfx, e.pfx, e.key]
    if key = [] then { acc with err := some "Missing key" }
    else
      let keyB := utf8Bytes key
      let keySize := keyB.length
      if KEY_MAX_SIZE ≤ keySize then { acc with err := some "Key too large" }
      else
        let mode := e.modeO.getD 420
        let mt := e.mtimeO.getD opts.nowB
        let atB := e.atimeO.getD opts.nowB
        if e.isDir then
          let dirEntry : WDir :=
            { key := keyB, keySize := keySize, mode := mode, mtimeB := mt, atimeB := atB,
              encryption := false }
          { acc with
            st := { acc.st with directoryMap := mapSet acc.st.directoryMap keyB dirEntry },
            dirKeys := acc.dirKeys ++ [keyB] }
        else
          match e.data with
          | none => acc
          | some content =>
            let dataOffset := acc.st.eof
            let written := storedWindow gzF ks iv hmF gz enc hm content
            let st1 := pushBytes acc.st written
            let dataSize := st1.eof - dataOffset
            let idxEntry : WEntry :=
              { key := keyB, keySize := keySize, gzip := gz, encryption := enc, hmac := hm,
                mode := mode, mtimeB := mt, atimeB := atB,
                offset := dataOffset, size := dataSize }
            { acc with
              st := { st1 with indexMap := mapSet st1.indexMap keyB idxEntry },
              keys := acc.keys ++ [keyB],
              dbSize := acc.dbSize + dataSize }

/-- Write one directory record (lines 519-544).  With encryption the key is
replaced by its ciphertext on disk and in the in-memory entry (the
`directory.key = currentKeyBuffer.toString()` side effect; we keep the
ciphertext bytes where the source keeps their lossy string decoding). -/
def writeDirRecord (ks : List Nat → Nat → Nat) (iv : List Nat) (st : Pak) (k : List Nat) :
    Pak :=
  match hlookup st.directoryMap k with
  | none => st
  | some dir =>
    let r := if dir.encryption then
        let ct := encryptBuffer ks iv dir.key
        (ct, { dir with key := ct, keySize := ct.length })
      else (dir.key, dir)
    let flags := FLAG_TYPE_DIRECTORY + (if dir.encryption then FLAG_ENCRYPTION else 0)
    let fixed := flags :: (u16be r.2.mode ++ (pad8 r.2.mtimeB ++ (pad8 r.2.atimeB ++
      u16be r.2.keySize)))
    let st1 := { st with directoryMap := mapSet st.directoryMap k r.2 }
    let st2 := pushBytes st1 fixed
    pushBytes st2 (r.1.take r.2.keySize)

/-- Write one index record (lines 547-576), with the same key-encryption side
effect. -/
def writeIndexRecord (ks : List Nat → Nat → Nat) (iv : List Nat) (st : Pak) (k : List Nat) :
    Pak :=
  match hlookup st.indexMap k with
  | none => st
  | some idx =>
    let r := if idx.encryption then
        let ct := encryptBuffer ks iv idx.key
        (ct, { idx with key := ct, keySize := ct.length })
      else (idx.key, idx)
    let flags := FLAG_TYPE_INDEX + (if idx.gzip then FLAG_GZIP else 0)
      + (if idx.encryption then FLAG_ENCRYPTION else 0)
      + (if idx.hmac then FLAG_HMAC else 0)
    let fixed := flags :: (u32be r.2.offset ++ (u32be r.2.size ++ (u16be r.2.mode ++
      (pad8 r.2.mtimeB ++ (pad8 r.2.atimeB ++ u16be r.2.keySize)))))
    let st1 := { st with indexMap := mapSet st.indexMap k r.2 }
    let st2 := pushBytes st1 fixed
    pushBytes st2 (r.1.take r.2.keySize)

/-- The datablock, entry-loop and record-writing part of `add` (lines
403-577), after the prefix has been validated. -/
def addBody (gzF : List Nat → List Nat) (ks : List Nat → Nat → Nat) (iv : List Nat)
    (hmF : List Nat → List Nat) (files : List AddEntry) (opts : AddOpts) (st2 : Pak) :
    Pak × Option String :=
  let acc := files.foldl (addEntryStep gzF ks iv hmF opts)
    { st := pushBytes st2 (FLAG_TYPE_DATABLOCK :: u32be 0), keys := [],
      dirKeys := [], dbSize := 0, err := none }
  match acc.err with
  | some e => (acc.st, some e)
  | none =>
    let st4 := { acc.st with
      file := writeAt acc.st.file st2.eof (FLAG_TYPE_DATABLOCK :: u32be acc.dbSize) }
    let st5 := acc.dirKeys.foldl (writeDirRecord ks iv) st4
    let st6 := acc.keys.foldl (writeIndexRecord ks iv) st5
    (st6, none)

/-- Model of `add(files, options)` (lines 377-577) for in-memory entries: load if
needed, add the core headers on a new archive, validate the prefix, then run
the body.  A thrown error aborts the remaining work but keeps the writes
already performed. -/
def add (gzF : List Nat → List Nat) (ks : List Nat → Nat → Nat) (iv : List Nat)
    (hmF : List Nat → List Nat) (majorV minorV : Nat)
    (st : Pak) (files : List AddEntry) (opts : AddOpts) : Pak × Option String :=
  let st1 := loadPak ks st
  seqThen (if st1.isNew && !st1.coreHeadersAdded then
      addCoreHeaders ks majorV minorV st1
    else (st1, none))
    (fun st2 =>
      if !opts.pfx.isEmpty &&
          (isAbsolutePath opts.pfx || hasSub ['.', '.', '/'] opts.pfx
            || hasSub ['~', '/'] opts.pfx) then
        (st2, some "Bad prefix")
      else addBody gzF ks iv hmF files opts st2)

/- ===== Reader model: getStream / getBuffer (lines 701-778) ===== -/

/-- Reader-side state: the loaded flag, the file bytes, the parsed index map
and the `shouldVerifyFileHmac` option. -/
structure ReadState where
  loaded : Bool
  file : List Nat
  indexMap : List (List Nat × IndexEntry)
  shouldVerifyFileHmac : Bool
deriving DecidableEq, Repr

/-- The decode tail shared by both readers (lines 774-776): decrypt then
gunzip as the entry flags dictate. -/
def decodeTail (gunF : List Nat → List Nat) (ks : List Nat → Nat → Nat)
    (index : IndexEntry) (buf : List Nat) : List Nat :=
  let b1 := if index.encryption then decryptBuffer ks buf else buf
  if index.gzip then gunF b1 else b1

/-- Model of `getBuffer(key)` (lines 745-778), including the duplicated HMAC block of
lines 761-773: the per-entry HMAC is stripped once by the first block (lines
756-759, also setting `verified` after a successful verify) and then a second
time by the duplicate block.  Mutations of the entry persist in the map even
when a later step throws; the state is returned alongside the result. -/
def getBuffer (gunF : List Nat → List Nat) (ks : List Nat → Nat → Nat)
    (hmF : List Nat → List Nat) (st : ReadState) (key : List Nat) :
    ReadState × Except String (Option (List Nat)) :=
  if !st.loaded then (st, .error "Not loaded")
  else
    match hlookup st.indexMap key with
    | none => (st, .ok none)
    | some index =>
      let verify := !index.verified && st.shouldVerifyFileHmac
      let buffer := (st.file.drop index.offset).take index.size
      match (if index.hmac then deHmacBuffer hmF buffer verify else .ok buffer) with
      | .error e => (st, .error e)
      | .ok buf1 =>
        let index1 := if index.hmac && verify then { index with verified := true } else index
        let st1 := { st with indexMap := mapSet st.indexMap key index1 }
        if index1.hmac then
          if st1.shouldVerifyFileHmac && index1.hmacMatch != some true then
            if index1.hmacMatch == some false then
              (st1, .error "HMAC already failed for this file!")
            else
              match deHmacBuffer hmF buf1 true with
              | .error e => (st1, .error e)
              | .ok buf2 =>
                let index2 := { index1 with hmacMatch := some true }
                let st2 := { st1 with indexMap := mapSet st1.indexMap key index2 }
                (st2, .ok (some (decodeTail gunF ks index buf2)))
          else
            match deHmacBuffer hmF buf1 false with
            | .error e => (st1, .error e)
            | .ok buf2 => (st1, .ok (some (decodeTail gunF ks index buf2)))
        else (st1, .ok (some (decodeTail gunF ks index buf1)))

/-- Model of `getStreamFromIndex` (lines 713-741): read the byte window from the file
(as a single chunk) and pipe it through (DeHmacStream?) → (DecipherStream?) →
(gunzip?).  In verify mode the poison check runs first; on a clean end the
handler executes `index.hmacMatch = stream.hmacMatch`, and `DeHmacStream`
never sets a `hmacMatch` property, so the assignment stores `undefined`
(`none`).  A stream error emits no `end` event, leaving the entry
unchanged. -/
def getStreamFromIndex (gunF : List Nat → List Nat) (ks : List Nat → Nat → Nat)
    (hmF : List Nat → List Nat) (st : ReadState) (key : List Nat) (index : IndexEntry) :
    ReadState × Except String (List Nat) :=
  let window := (st.file.drop index.offset).take index.size
  let stage1 : ReadState × Except String (List (List Nat)) :=
    if index.hmac then
      if st.shouldVerifyFileHmac && index.hmacMatch != some true then
        if index.hmacMatch == some false then
          (st, .error "HMAC already failed for this file!")
        else
          match DeHmacStream.runChunks true hmF [window] with
          | .error e => (st, .error e)
          | .ok out =>
            let index1 := { index with hmacMatch := none }
            ({ st with indexMap := mapSet st.indexMap key index1 }, .ok out)
      else
        match DeHmacStream.runChunks false hmF [window] with
        | .error e => (st, .error e)
        | .ok out => (st, .ok out)
    else (st, .ok [window])
  match stage1 with
  | (st1, .error e) => (st1, .error e)
  | (st1, .ok chunks1) =>
    let chunks2 := if index.encryption then DecipherStream.runChunks ks chunks1 else chunks1
    let bytes := concatChunks chunks2
    (st1, .ok (if index.gzip then gunF bytes else bytes))

/-- Model of `getStream(key)` (lines 701-708): requires a loaded archive, returns
`undefined` for an absent key, otherwise the decoded stream. -/
def getStream (gunF : List Nat → List Nat) (ks : List Nat → Nat → Nat)
    (hmF : List Nat → List Nat) (st : ReadState) (key : List Nat) :
    ReadState × Except String (Option (List Nat)) :=
  if !st.loaded then (st, .error "Not loaded")
  else
    match hlookup st.indexMap key with
    | none => (st, .ok none)
    | some index =>
      match getStreamFromIndex gunF ks hmF st key index with
      | (st1, .error e) => (st1, .error e)
      | (st1, .ok b) => (st1, .ok (some b))

/-- Model of `open` of an existing file plus `load()` with verification off: the
reader state over the given file bytes. -/
def reopenRead (ks : List Nat → Nat → Nat) (file : List Nat) : ReadState :=
  { loaded := true, file := file,
    indexMap := (parseMeta ks true false file meta0).indexMap,
    shouldVerifyFileHmac := false }

/- ===== The seed scenario of C4 ===== -/

/-- The seed-scenario entry: `{key: "hello.txt", buffer: "hi"}`. -/
def helloEntry : AddEntry :=
  { key := "hello.txt".toList, pfx := [], data := some (strB "hi"), isDir := false,
    modeO := none, mtimeO := none, atimeO := none, gzipO := none, encO := none,
    hmacO := none }

/-- No-flag `add` options with an all-zero time cell. -/
def plainOpts : AddOpts :=
  { pfx := [], gzip := false, encryption := false, hmac := false,
    nowB := List.replicate 8 0 }

/-- The archive produced by the seed scenario: a fresh archive plus one `add`
call with `helloEntry`.  The gzip/keystream/HMAC parameters are unused with
no flags set; the package version numbers are instantiated with 0 (they only
occupy one byte each regardless of value). -/
def helloPak : Pak :=
  (add gzId ks0 (List.replicate 16 0) hm0 0 0 freshPak [helloEntry] plainOpts).1

/-- The index entry used by the C1/C7 scenarios: an hmac-flagged entry of 40
bytes (8 content + 32 digest) at offset 3, no gzip, no encryption, fresh
transient state. -/
def hmacEntry : IndexEntry :=
  { offset := 3, size := 40, mode := 420, mtimeB := List.replicate 8 0,
    atimeB := List.replicate 8 0, gzip := false, encryption := false, hmac := true,
    key := strB "f", verified := false, hmacMatch := none }

/-- C1 scenario state: the stored window is exactly what the write pipeline
produces for content "abcdefgh" with only the hmac flag, under the digest
function `hm0`; reading happens without the verify option (the default). -/
def c1State : ReadState :=
  { loaded := true,
    file := jpkMagic ++ storedWindow gzId ks0 (List.replicate 16 0) hm0
      false false true (strB "abcdefgh"),
    indexMap := [(strB "f", hmacEntry)], shouldVerifyFileHmac := false }

/-- C7 scenario state: the same entry over a tampered window — the trailing
32 bytes are 7s where the digest function `hm0` yields zeros — read with the
verify option on. -/
def c7State : ReadState :=
  { loaded := true,
    file := jpkMagic ++ (strB "abcdefgh" ++ List.replicate 32 7),
    indexMap := [(strB "f", hmacEntry)], shouldVerifyFileHmac := true }

/-- Loaded reader state with an empty index map. -/
def c9StL : ReadState :=
  { loaded := true, file := [], indexMap := [], shouldVerifyFileHmac := false }

/-- Unloaded reader state. -/
def c9StN : ReadState :=
  { loaded := false, file := [], indexMap := [], shouldVerifyFileHmac := false }

/-- A loaded fresh archive carrying an already computed digest, on which
`addMetaHmac` succeeds. -/
def c3St : Pak := { freshPak with metaHmac := some (List.replicate 32 0) }

/- ===== C8: sequences of add / addHeader calls ===== -/

/-- One mutating call of a C8 sequence: an external `addHeader` or an `add`. -/
inductive JOp where
  | opHeader (key : List Nat) (value : HVal)
  | opAdd (files : List AddEntry) (opts : AddOpts)

/-- Run one call, keeping the state a thrown error leaves behind. -/
def runOp (gzF : List Nat → List Nat) (ks : List Nat → Nat → Nat) (iv : List Nat)
    (hmF : List Nat → List Nat) (majorV minorV : Nat) (st : Pak) : JOp → Pak
  | .opHeader key value => (addHeader ks majorV minorV st key value false).1
  | .opAdd files opts => (add gzF ks iv hmF majorV minorV st files opts).1

/-- Run a sequence of calls. -/
def runOps (gzF : List Nat → List Nat) (ks : List Nat → Nat → Nat) (iv : List Nat)
    (hmF : List Nat → List Nat) (majorV minorV : Nat) (st : Pak) (ops : List JOp) : Pak :=
  ops.foldl (runOp gzF ks iv hmF majorV minorV) st

/-- The file invariant: the EOF pointer is the file length, at least 3, and
the file starts with the magic. -/
def PakInv (st : Pak) : Prop :=
  st.eof = st.file.length ∧ 3 ≤ st.eof ∧ st.file.take 3 = jpkMagic

/-- Invariant for the entry loop: the file invariant, the prelude bounds, and
a non-decreasing EOF. -/
def AccInv (dbOff : Nat) (acc : AddAcc) : Prop :=
  PakInv acc.st ∧ dbOff + 5 ≤ acc.st.eof ∧ 3 ≤ dbOff

/-- The per-entry guard of the `extract` file loop (lines 592-611): compute
`filePath = path.join(targetDirectory, index.key)` and
`fileDir = path.dirname(filePath)`; test the basename — the comparison reads
`fileName`, a variable that is declared at line 584 but never assigned in
this loop, so in JavaScript it is `undefined` and every comparison is false —
then reject `fileDir` when it is absolute or contains "../" or "~/".  Returns
whether the entry is processed and the path `createWriteStream` then writes
to (line 619). -/
def extractIndexGuard (targetDir key : List Char) : Bool × List Char :=
  let filePath := pjoinList [targetDir, key]
  let fileDir := pdirname filePath
  let fileName : Option (List Char) := none
  if fileName = some ['.'] ∨ fileName = some ['.', '.'] ∨ fileName = some ['~'] then
    (false, filePath)
  else if isAbsolutePath fileDir || hasSub ['.', '.', '/'] fileDir
      || hasSub ['~', '/'] fileDir then
    (false, filePath)
  else
    (true, filePath)

/-- Is the normalised relative path `p` inside the directory `t`? -/
def withinDir (t p : List Char) : Bool :=
  p == t || startsBy (t ++ ['/']) p

/- ===== Theorems ===== -/

/- ===== List and byte-codec lemmas ===== -/

theorem take_len_app {α : Type} (l m : List α) : (l ++ m).take l.length = l := by
  induction l with
  | nil => simp
  | cons a t ih => simp [ih]

theorem drop_len_app {α : Type} (l m : List α) : (l ++ m).drop l.length = m := by
  induction l with
  | nil => simp
  | cons a t ih => simp [ih]

theorem take_app_eq {α : Type} (l m : List α) (n : Nat) (h : l.length = n) :
    (l ++ m).take n = l := by
  subst h; exact take_len_app l m

theorem drop_app_eq {α : Type} (l m : List α) (n : Nat) (h : l.length = n) :
    (l ++ m).drop n = m := by
  subst h; exact drop_len_app l m

theorem drop_app_ge {α : Type} (l m : List α) (i : Nat) (h : l.length ≤ i) :
    (l ++ m).drop i = m.drop (i - l.length) := by
  induction l generalizing i with
  | nil => simp
  | cons a t ih =>
    cases i with
    | zero => simp at h
    | succ j =>
      have := ih j (Nat.le_of_succ_le_succ h)
      simpa [Nat.succ_sub_succ] using this

@[simp] theorem byteAt_zero (a : Nat) (l : List Nat) : byteAt (a :: l) 0 = a := rfl

@[simp] theorem byteAt_one (a b : Nat) (l : List Nat) : byteAt (a :: b :: l) 1 = b := rfl

@[simp] theorem byteAt_two (a b c : Nat) (l : List Nat) : byteAt (a :: b :: c :: l) 2 = c := rfl

@[simp] theorem byteAt_three (a b c d : Nat) (l : List Nat) :
    byteAt (a :: b :: c :: d :: l) 3 = d := rfl

theorem byteAt_app_ge (l m : List Nat) (i : Nat) (h : l.length ≤ i) :
    byteAt (l ++ m) i = byteAt m (i - l.length) :=
  List.getD_append_right l m 0 i h

theorem u16at_app_ge (l m : List Nat) (i : Nat) (h : l.length ≤ i) :
    u16at (l ++ m) i = u16at m (i - l.length) := by
  unfold u16at
  rw [byteAt_app_ge l m i h, byteAt_app_ge l m (i + 1) (by omega)]
  have h1 : i + 1 - l.length = i - l.length + 1 := by omega
  rw [h1]

theorem u32at_app_ge (l m : List Nat) (i : Nat) (h : l.length ≤ i) :
    u32at (l ++ m) i = u32at m (i - l.length) := by
  unfold u32at
  rw [byteAt_app_ge l m i h, byteAt_app_ge l m (i + 1) (by omega),
      byteAt_app_ge l m (i + 2) (by omega), byteAt_app_ge l m (i + 3) (by omega)]
  have h1 : i + 1 - l.length = i - l.length + 1 := by omega
  have h2 : i + 2 - l.length = i - l.length + 2 := by omega
  have h3 : i + 3 - l.length = i - l.length + 3 := by omega
  rw [h1, h2, h3]

@[simp] theorem length_u16be (n : Nat) : (u16be n).length = 2 := rfl

@[simp] theorem length_u32be (n : Nat) : (u32be n).length = 4 := rfl

theorem u16at_u16be_app (n : Nat) (h : n < 65536) (m : List Nat) :
    u16at (u16be n ++ m) 0 = n := by
  simp [u16at, u16be]
  omega

theorem u32at_u32be_app (n : Nat) (h : n < 4294967296) (m : List Nat) :
    u32at (u32be n ++ m) 0 = n := by
  simp [u32at, u32be]
  omega

theorem drop_three {α : Type} (a b c : α) (l : List α) : (a :: b :: c :: l).drop 3 = l := rfl

theorem take_three {α : Type} (a b c : α) (l : List α) :
    (a :: b :: c :: l).take 3 = [a, b, c] := rfl

/-- Fuel does not matter once it covers the remaining bytes. -/
theorem parseLoop_fuel (ks : List Nat → Nat → Nat) (lm ch : Bool) :
    ∀ f1 f2 bytes st, bytes.length ≤ f1 → bytes.length ≤ f2 →
      parseLoop ks lm ch f1 bytes st = parseLoop ks lm ch f2 bytes st := by
  intro f1
  induction f1 with
  | zero =>
    intro f2 bytes st h1 _
    have hb : bytes = [] := List.eq_nil_of_length_eq_zero (Nat.le_zero.mp h1)
    subst hb
    cases f2 <;> rfl
  | succ n ih =>
    intro f2 bytes st h1 h2
    cases bytes with
    | nil => cases f2 <;> rfl
    | cons flags rest =>
      cases f2 with
      | zero => simp at h2
      | succ m =>
        simp only [parseLoop]
        have hrest : rest.length ≤ n := by simpa using h1
        have hrest2 : rest.length ≤ m := by simpa using h2
        have hdrop : ∀ k, (rest.drop k).length ≤ rest.length := by
          intro k; simp [List.length_drop]
        exact ih m _ _ (le_trans (hdrop _) hrest) (le_trans (hdrop _) hrest2)

theorem take_app_ge {α : Type} (l m : List α) (i : Nat) (h : l.length ≤ i) :
    (l ++ m).take i = l ++ m.take (i - l.length) := by
  induction l generalizing i with
  | nil => simp
  | cons a t ih =>
    cases i with
    | zero => simp at h
    | succ j => simp [ih j (Nat.le_of_succ_le_succ h), Nat.succ_sub_succ]

theorem u16at_cons_one (a : Nat) (l : List Nat) : u16at (a :: l) 1 = u16at l 0 := rfl

/-- Model of `parseStep` on an encoded datablock record. -/
theorem parseStep_enc_datablock (ks : List Nat → Nat → Nat) (lm ch : Bool)
    (body : List Nat) (hr : body.length < 4294967296) (T : List Nat) (st : MetaState) :
    parseStep ks lm ch 2 ((u32be body.length ++ body) ++ T) st
      = ((u32be body.length ++ body).length, applyJRec ks lm ch (.datablock body) st) := by
  have hshape : (u32be body.length ++ body) ++ T = u32be body.length ++ (body ++ T) := by
    simp
  rw [hshape]
  simp only [parseStep, applyJRec, FLAG_TYPE_HEADER, FLAG_TYPE_INDEX, FLAG_TYPE_DIRECTORY]
  rw [u32at_u32be_app _ hr, take_app_eq _ _ 4 (length_u32be _)]
  simp [Prod.mk.injEq]

/-- Model of `parseStep` on an encoded header record. -/
theorem parseStep_enc_header (ks : List Nat → Nat → Nat) (lm ch : Bool)
    (key value : List Nat) (_hk : key.length < 256) (hv : value.length < 65536)
    (T : List Nat) (st : MetaState) :
    parseStep ks lm ch 0 ((key.length :: (u16be value.length ++ (key ++ value))) ++ T) st
      = ((key.length :: (u16be value.length ++ (key ++ value))).length,
         applyJRec ks lm ch (.header key value) st) := by
  have hshape : (key.length :: (u16be value.length ++ (key ++ value))) ++ T
      = key.length :: ((value.length / 256 % 256) :: ((value.length % 256) ::
          (key ++ (value ++ T)))) := by
    simp [u16be]
  have hdec : 256 * (value.length / 256 % 256) + value.length % 256 = value.length := by
    omega
  rw [hshape]
  simp [parseStep, applyJRec, FLAG_TYPE_HEADER, FLAG_TYPE_INDEX, FLAG_TYPE_DIRECTORY,
    u16at, u16be, hdec, drop_three, take_three, take_len_app, drop_len_app, Prod.mk.injEq]
  omega

/-- Model of `parseStep` on an encoded index record. -/
theorem parseStep_enc_index (ks : List Nat → Nat → Nat) (lm ch : Bool)
    (flags offset size mode : Nat) (mt atB key : List Nat)
    (hflags : flags % 4 = 1) (hoff : offset < 4294967296) (hsz : size < 4294967296)
    (hmode : mode < 65536) (hmt : mt.length = 8) (hat : atB.length = 8)
    (hkl : key.length < 65536) (T : List Nat) (st : MetaState) :
    parseStep ks lm ch flags ((idxFixed offset size mode mt atB key.length ++ key) ++ T) st
      = ((idxFixed offset size mode mt atB key.length ++ key).length,
         applyJRec ks lm ch (.index flags offset size mode mt atB key) st) := by
  simp [parseStep, applyJRec, idxFixed, FLAG_TYPE_HEADER, FLAG_TYPE_INDEX, FLAG_TYPE_DIRECTORY,
    hflags, u16at_app_ge, u32at_app_ge, drop_app_ge, take_app_ge,
    u16at_u16be_app _ hkl, u16at_u16be_app _ hmode,
    u32at_u32be_app _ hoff, u32at_u32be_app _ hsz,
    hmt, hat, take_app_eq _ _ 8 hmt, take_app_eq _ _ 8 hat,
    take_len_app, drop_len_app, Prod.mk.injEq]
  omega

/-- Model of `parseStep` on an encoded directory record. -/
theorem parseStep_enc_directory (ks : List Nat → Nat → Nat) (lm ch : Bool)
    (flags mode : Nat) (mt atB key : List Nat)
    (hflags : flags % 4 = 3) (hmode : mode < 65536) (hmt : mt.length = 8)
    (hat : atB.length = 8) (hkl : key.length < 65536) (T : List Nat) (st : MetaState) :
    parseStep ks lm ch flags ((dirFixed mode mt atB key.length ++ key) ++ T) st
      = ((dirFixed mode mt atB key.length ++ key).length,
         applyJRec ks lm ch (.directory flags mode mt atB key) st) := by
  simp [parseStep, applyJRec, dirFixed, FLAG_TYPE_HEADER, FLAG_TYPE_INDEX, FLAG_TYPE_DIRECTORY,
    hflags, u16at_app_ge, u32at_app_ge, drop_app_ge, take_app_ge,
    u16at_u16be_app _ hkl, u16at_u16be_app _ hmode,
    hmt, hat, take_app_eq _ _ 8 hmt, take_app_eq _ _ 8 hat,
    take_len_app, drop_len_app, Prod.mk.injEq]
  omega

/-- Model of `parseStep` consumes exactly one encoded record and performs its
`applyJRec` state change. -/
theorem parseStep_encoded (ks : List Nat → Nat → Nat) (lm ch : Bool)
    (r : JRec) (hr : r.WF) (T : List Nat) (st : MetaState) :
    parseStep ks lm ch r.flagsByte (r.body ++ T) st
      = (r.body.length, applyJRec ks lm ch r st) := by
  cases r with
  | header key value => exact parseStep_enc_header ks lm ch key value hr.1 hr.2 T st
  | index flags offset size mode mt atB key =>
    obtain ⟨h1, h2, h3, h4, h5, h6, h7⟩ := hr
    exact parseStep_enc_index ks lm ch flags offset size mode mt atB key h1 h2 h3 h4 h5 h6 h7 T st
  | directory flags mode mt atB key =>
    obtain ⟨h1, h2, h3, h4, h5⟩ := hr
    exact parseStep_enc_directory ks lm ch flags mode mt atB key h1 h2 h3 h4 h5 T st
  | datablock body => exact parseStep_enc_datablock ks lm ch body hr T st

/-- Model of `parseLoop` on encoded records followed by `extra` bytes processes the
records with `applyJRec` and then continues on `extra`. -/
theorem parseLoop_encoded (ks : List Nat → Nat → Nat) (lm ch : Bool) :
    ∀ (rs : List JRec), (∀ r ∈ rs, r.WF) → ∀ (extra : List Nat) (st : MetaState) (f : Nat),
      (encodeJRecs rs ++ extra).length ≤ f →
      parseLoop ks lm ch f (encodeJRecs rs ++ extra) st
        = parseLoop ks lm ch extra.length extra (applyJRecs ks lm ch rs st) := by
  intro rs
  induction rs with
  | nil =>
    intro _ extra st f hf
    simp only [encodeJRecs, List.foldr_nil, List.nil_append] at hf ⊢
    exact parseLoop_fuel ks lm ch f extra.length extra st hf le_rfl
  | cons r rest ih =>
    intro hwf extra st f hf
    have hr : r.WF := hwf r (by simp)
    have hrest : ∀ q ∈ rest, q.WF := fun q hq => hwf q (by simp [hq])
    have hshape : encodeJRecs (r :: rest) ++ extra
        = r.flagsByte :: (r.body ++ (encodeJRecs rest ++ extra)) := by
      simp [encodeJRecs, JRec.encode]
    rw [hshape] at hf ⊢
    cases f with
    | zero => simp at hf
    | succ n =>
      simp only [parseLoop]
      rw [parseStep_encoded ks lm ch r hr _ st]
      rw [drop_len_app]
      have hlen : (encodeJRecs rest ++ extra).length ≤ n := by
        simp only [List.length_cons, List.length_append] at hf
        simp only [List.length_append]
        omega
      rw [ih hrest extra (applyJRec ks lm ch r st) n hlen]
      simp [applyJRecs]

/-- Model of `parseMeta` over a file made of the magic plus encoded records runs
`applyJRec` over the records. -/
theorem parseMeta_encoded (ks : List Nat → Nat → Nat) (lm ch : Bool)
    (rs : List JRec) (h : ∀ r ∈ rs, r.WF) (st : MetaState) :
    parseMeta ks lm ch (jpkMagic ++ encodeJRecs rs) st = applyJRecs ks lm ch rs st := by
  unfold parseMeta
  have hdrop : (jpkMagic ++ encodeJRecs rs).drop 3 = encodeJRecs rs := by
    simp [jpkMagic]
  rw [hdrop]
  have h2 := parseLoop_encoded ks lm ch rs h [] st (encodeJRecs rs).length (by simp)
  simpa [parseLoop] using h2

theorem hlookup_mapSet_self {α : Type} (m : List (List Nat × α)) (k : List Nat) (v : α) :
    hlookup (mapSet m k v) k = some v := by
  induction m with
  | nil => simp [mapSet, hlookup]
  | cons p rest ih =>
    obtain ⟨pk, pv⟩ := p
    by_cases h : pk = k
    · simp [mapSet, hlookup, h]
    · simp [mapSet, hlookup, h, ih]

theorem mapSet_keys_mem {α : Type} (m : List (List Nat × α)) (k : List Nat) (v : α) :
    k ∈ (mapSet m k v).map Prod.fst := by
  induction m with
  | nil => simp [mapSet]
  | cons p rest ih =>
    obtain ⟨pk, pv⟩ := p
    by_cases h : pk = k
    · simp [mapSet, h]
    · simp [mapSet, h, ih]

theorem mapSet_val_mem {α : Type} (m : List (List Nat × α)) (k : List Nat) (v : α) :
    v ∈ (mapSet m k v).map Prod.snd := by
  induction m with
  | nil => simp [mapSet]
  | cons p rest ih =>
    obtain ⟨pk, pv⟩ := p
    by_cases h : pk = k
    · simp [mapSet, h]
    · simp [mapSet, h, ih]

/-- C5: refuted — `DecipherStream` does not buffer a split IV.  When the first
16 bytes arrive split across chunks (here 8 bytes then 24 bytes, 32 bytes in
total), `_transform` overwrites `this.initVector` with `buffer.slice(0,
remaining)` instead of appending, so `initVector` never reaches 16 bytes, the
decipher is never created, and the stream outputs nothing and completes
without error — instead of decrypting the 16 bytes that follow the IV. -/
theorem c5_decipher_split_iv_outputs_nothing :
    DecipherStream.run ks0 [List.replicate 8 0, List.replicate 24 0] = []
    ∧ 16 < (List.replicate 8 (0 : Nat) ++ List.replicate 24 (0 : Nat)).length := by
  exact ⟨by decide, by decide⟩

/-- C6: refuted on one conjunct — when a chunk shorter than 32 bytes arrives
while a chunk is suspended, `DeHmacStream._transform` does not concatenate and
hold the two: it runs `Buffer.concat( this.lastBuffer , buffer )`, whose first
argument must be an Array, so the stream fails with a TypeError (first
conjunct).  The second conjunct shows the behaviour the claim gets right: a new
chunk of length ≥ 32 releases the previously suspended chunk, and flush splits
off the final 32 bytes, so nothing of the trailing 32 bytes is emitted before
end-of-stream. -/
theorem c6_dehmac_small_chunk_type_error :
    DeHmacStream.run false hm0 [List.replicate 32 0, [7]]
      = .error "TypeError: the list argument must be an instance of Array"
    ∧ DeHmacStream.run false hm0 [List.replicate 32 0, List.replicate 33 1]
      = .ok (List.replicate 32 0 ++ [1]) := by
  exact ⟨rfl, rfl⟩

/-- C10: confirmed — `parseMeta` never consults the DELETED flag (bit value 4).
An on-disk index record whose flags have the deleted bit set is still decoded
into its full entry and inserted into `indexMap`: `hlookup` finds it, `has`
returns true, its key appears in `keys()`, and the entry is among the values
`extract` iterates over.  `flags % 4 = 1` is the type dispatch and
`Nat.testBit flags 2` the deleted bit; the entry is not hidden from any
reader API. -/
theorem c10_deleted_flag_ignored (ks : List Nat → Nat → Nat)
    (pre : List JRec) (hpre : ∀ r ∈ pre, r.WF)
    (flags offset size mode : Nat) (mt atB key : List Nat)
    (htype : flags % 4 = 1) (_hdel : Nat.testBit flags 2 = true)
    (henc : Nat.testBit flags 5 = false)
    (hoff : offset < 4294967296) (hsz : size < 4294967296) (hmode : mode < 65536)
    (hmt : mt.length = 8) (hat : atB.length = 8) (hkl : key.length < 65536) :
    (hlookup (parseMeta ks true false
        (jpkMagic ++ encodeJRecs (pre ++ [.index flags offset size mode mt atB key]))
        meta0).indexMap key = some
      { offset := offset, size := size, mode := mode, mtimeB := mt, atimeB := atB,
        gzip := Nat.testBit flags 3, encryption := false, hmac := Nat.testBit flags 7,
        key := key, verified := false, hmacMatch := none })
    ∧ hasKey (parseMeta ks true false
        (jpkMagic ++ encodeJRecs (pre ++ [.index flags offset size mode mt atB key]))
        meta0).indexMap key = true
    ∧ key ∈ keysOf (parseMeta ks true false
        (jpkMagic ++ encodeJRecs (pre ++ [.index flags offset size mode mt atB key]))
        meta0).indexMap
    ∧ ∃ e ∈ extractIterates (parseMeta ks true false
        (jpkMagic ++ encodeJRecs (pre ++ [.index flags offset size mode mt atB key]))
        meta0).indexMap, e.key = key := by
  have hwf : ∀ r ∈ pre ++ [JRec.index flags offset size mode mt atB key], r.WF := by
    intro r hr
    rcases List.mem_append.mp hr with h | h
    · exact hpre r h
    · simp only [List.mem_singleton] at h
      subst h
      exact ⟨htype, hoff, hsz, hmode, hmt, hat, hkl⟩
  rw [parseMeta_encoded ks true false _ hwf meta0]
  simp only [applyJRecs, List.foldl_append, List.foldl_cons, List.foldl_nil]
  simp only [applyJRec, henc, if_neg, Bool.false_eq_true, not_false_eq_true, if_true,
    if_false, ite_false, ite_true, and_false, false_and]
  refine ⟨?_, ?_, ?_, ?_⟩
  · exact hlookup_mapSet_self _ _ _
  · simp [hasKey, hlookup_mapSet_self]
  · exact mapSet_keys_mem _ _ _
  · exact ⟨_, mapSet_val_mem _ _ _, rfl⟩

/-- Witness for C10 at a concrete input: flags byte 5 = index type bit plus the
deleted bit, key byte 120. -/
theorem c10_deleted_flag_ignored_witness :
    (hlookup (parseMeta ks0 true false
        (jpkMagic ++ encodeJRecs (([] : List JRec) ++
          [.index 5 0 0 0 (List.replicate 8 0) (List.replicate 8 0) [120]]))
        meta0).indexMap [120] = some
      { offset := 0, size := 0, mode := 0, mtimeB := List.replicate 8 0,
        atimeB := List.replicate 8 0,
        gzip := Nat.testBit 5 3, encryption := false, hmac := Nat.testBit 5 7,
        key := [120], verified := false, hmacMatch := none })
    ∧ hasKey (parseMeta ks0 true false
        (jpkMagic ++ encodeJRecs (([] : List JRec) ++
          [.index 5 0 0 0 (List.replicate 8 0) (List.replicate 8 0) [120]]))
        meta0).indexMap [120] = true
    ∧ [120] ∈ keysOf (parseMeta ks0 true false
        (jpkMagic ++ encodeJRecs (([] : List JRec) ++
          [.index 5 0 0 0 (List.replicate 8 0) (List.replicate 8 0) [120]]))
        meta0).indexMap
    ∧ ∃ e ∈ extractIterates (parseMeta ks0 true false
        (jpkMagic ++ encodeJRecs (([] : List JRec) ++
          [.index 5 0 0 0 (List.replicate 8 0) (List.replicate 8 0) [120]]))
        meta0).indexMap, e.key = [120] :=
  c10_deleted_flag_ignored ks0 [] (by simp) 5 0 0 0 (List.replicate 8 0)
    (List.replicate 8 0) [120] (by decide) (by decide) (by decide) (by decide)
    (by decide) (by decide) (by decide) (by decide) (by decide)

/-- C4: counterexample — the seed-scenario archive is not 48 bytes long.  A
fresh archive receives the `majorVersion` and `minorVersion` core headers on
the first `add` (lines 339-345 and 379), 17 bytes each, which the claim's
arithmetic omits. -/
theorem c4_seed_length_counterexample : helloPak.file.length ≠ 48 := by
  decide

/-- C4 amended: the `add` call succeeds, the file is 82 bytes long — 3
(magic) + 17 + 17 (the two core headers) + 5 (datablock prelude) + 2 (data)
+ 29 + 9 (index fixed + key) — and after reopening, `getBuffer("hello.txt")`
returns the bytes of "hi". -/
theorem c4_seed_amended :
    (add gzId ks0 (List.replicate 16 0) hm0 0 0 freshPak [helloEntry] plainOpts).2 = none
    ∧ helloPak.file.length = 82
    ∧ (getBuffer gzId ks0 hm0 (reopenRead ks0 helloPak.file) (strB "hello.txt")).2
        = .ok (some (strB "hi")) := by
  refine ⟨rfl, by decide, rfl⟩

/-- C1: refuted for `getBuffer` — the duplicated HMAC block (lines 761-773)
strips 32 bytes twice, so `getBuffer` on an hmac-flagged entry with 8-byte
content returns an empty buffer (the second `slice(0, 8 - 32)` clamps to
empty), while the stream path used by `extract`/`getStream` strips the digest
once and returns the content.  The round trip therefore fails through
`getBuffer` even though the stored window is intact. -/
theorem c1_getbuffer_double_dehmac :
    (getBuffer gzId ks0 hm0 c1State (strB "f")).2 = .ok (some [])
    ∧ (getStream gzId ks0 hm0 c1State (strB "f")).2 = .ok (some (strB "abcdefgh"))
    ∧ strB "abcdefgh" ≠ [] := by
  refine ⟨rfl, rfl, by decide⟩

/-- C7: refuted — a failed per-entry HMAC verification does not poison the
entry.  `hmacMatch` is never assigned `false` anywhere in the source (the
stream `end` handler copies the non-existent `stream.hmacMatch`, and
`getBuffer` only ever sets `true`), so the first failing `getBuffer` leaves
the state unchanged, the second call re-reads the window and re-verifies,
failing again with the mismatch error — never with the
"HMAC already failed" fast path — and the verifying stream path fails the
same way, also leaving the entry unchanged. -/
theorem c7_no_poisoning :
    getBuffer gzId ks0 hm0 c7State (strB "f")
      = (c7State, .error "HMAC mismatch! The file has been tampered!")
    ∧ getBuffer gzId ks0 hm0 (getBuffer gzId ks0 hm0 c7State (strB "f")).1 (strB "f")
      = (c7State, .error "HMAC mismatch! The file has been tampered!")
    ∧ getStream gzId ks0 hm0 c7State (strB "f")
      = (c7State, .error "Bad stream: HMAC mismatch! The stream has been tampered!")
    ∧ (hlookup c7State.indexMap (strB "f")).map IndexEntry.hmacMatch = some none := by
  refine ⟨rfl, rfl, rfl, rfl⟩

/-- C9: confirmed — after a load, `getStream`/`getBuffer` on a key absent
from the index map return `undefined` (no stream, no buffer) without an
error, and only calling them on an unloaded archive raises the Not-loaded
error. -/
theorem c9_absent_key (gunF : List Nat → List Nat) (ks : List Nat → Nat → Nat)
    (hmF : List Nat → List Nat) (stL stN : ReadState) (key : List Nat)
    (hL : stL.loaded = true) (hk : hlookup stL.indexMap key = none)
    (hN : stN.loaded = false) :
    getBuffer gunF ks hmF stL key = (stL, .ok none)
    ∧ getStream gunF ks hmF stL key = (stL, .ok none)
    ∧ getBuffer gunF ks hmF stN key = (stN, .error "Not loaded")
    ∧ getStream gunF ks hmF stN key = (stN, .error "Not loaded") := by
  refine ⟨?_, ?_, ?_, ?_⟩ <;> simp [getBuffer, getStream, hL, hk, hN]

/-- Witness for C9 at concrete states and the empty key. -/
theorem c9_absent_key_witness :
    getBuffer gzId ks0 hm0 c9StL [] = (c9StL, .ok none)
    ∧ getStream gzId ks0 hm0 c9StL [] = (c9StL, .ok none)
    ∧ getBuffer gzId ks0 hm0 c9StN [] = (c9StN, .error "Not loaded")
    ∧ getStream gzId ks0 hm0 c9StN [] = (c9StN, .error "Not loaded") :=
  c9_absent_key gzId ks0 hm0 c9StL c9StN [] rfl rfl rfl

theorem loadPak_loaded (ks : List Nat → Nat → Nat) (s : Pak) :
    (loadPak ks s).loaded = true := by
  by_cases h : s.loaded <;> simp [loadPak, h]

theorem loadPak_metaHmac (ks : List Nat → Nat → Nat) (s : Pak) :
    (loadPak ks s).metaHmac = s.metaHmac := by
  by_cases h : s.loaded <;> simp [loadPak, h]

theorem pushBytes_loaded (s : Pak) (b : List Nat) : (pushBytes s b).loaded = s.loaded := rfl

theorem pushBytes_metaHmac (s : Pak) (b : List Nat) :
    (pushBytes s b).metaHmac = s.metaHmac := rfl

theorem pushBytes_headers (s : Pak) (b : List Nat) :
    (pushBytes s b).headers = s.headers := rfl

theorem isNone_false_of_isSome {α : Type} (o : Option α) (h : o.isSome) :
    o.isNone = false := by
  cases o <;> simp_all

/-- The state `addMetaHmac` works on always carries a computed digest. -/
theorem metaHmac_isSome_after_compute (ks : List Nat → Nat → Nat)
    (hmF : List Nat → List Nat) (st : Pak) :
    (if !st.loaded || st.metaHmac.isNone then computeMetaHmac ks hmF st
     else st).metaHmac.isSome = true := by
  split
  · simp [computeMetaHmac]
  · rename_i h
    simp only [Bool.or_eq_true, Bool.not_eq_true'] at h
    push_neg at h
    cases hm : st.metaHmac
    · simp [hm] at h
    · simp

/-- The core of the double-`addMetaHmac` argument, over the state `st1` after
the digest has been ensured. -/
theorem addMetaHmac_step (ks : List Nat → Nat → Nat) (hmF : List Nat → List Nat)
    (majorV minorV : Nat) (st1 st2 : Pak) (hm1 : st1.metaHmac.isSome = true)
    (hok : (if (hlookup st1.headers metaHmacKeyB).isSome = true
            then (st1, some "The meta HMAC header is already existing!")
            else addHeader ks majorV minorV st1 metaHmacKeyB
              (HVal.buf (st1.metaHmac.getD [])) true) = (st2, none)) :
    (addMetaHmac ks hmF majorV minorV st2).2.isSome = true := by
  split at hok
  · simp at hok
  · simp only [addHeader, Bool.not_true, Bool.false_and, Bool.false_eq_true, if_false,
      ite_false] at hok
    simp only [addHeaderRecord, headerValueToBuffer, seqThen] at hok
    rw [if_neg (by decide : ¬(metaHmacKeyB = majorVersionKeyB
        ∨ metaHmacKeyB = minorVersionKeyB))] at hok
    simp only [if_true] at hok
    split at hok
    · simp at hok
    · have h1 := congrArg Prod.fst hok
      simp only at h1
      subst h1
      simp [addMetaHmac, hlookup_mapSet_self, pushBytes_loaded, pushBytes_metaHmac,
        pushBytes_headers, loadPak_loaded, loadPak_metaHmac,
        isNone_false_of_isSome _ hm1]

/-- A successful `addMetaHmac` makes the next `addMetaHmac` fail: the first
call stores the `metaHmac` header, and the second finds it. -/
theorem addMetaHmac_twice (ks : List Nat → Nat → Nat) (hmF : List Nat → List Nat)
    (majorV minorV : Nat) (st st2 : Pak)
    (hok : addMetaHmac ks hmF majorV minorV st = (st2, none)) :
    (addMetaHmac ks hmF majorV minorV st2).2.isSome = true := by
  simp only [addMetaHmac] at hok
  split at hok
  · exact addMetaHmac_step ks hmF majorV minorV _ st2 (by simp [computeMetaHmac]) hok
  · rename_i h
    refine addMetaHmac_step ks hmF majorV minorV st st2 ?_ hok
    simp only [Bool.or_eq_true, Bool.not_eq_true'] at h
    push_neg at h
    cases hm : st.metaHmac
    · rw [hm] at h
      simp at h
    · simp

/-- C3: confirmed — a `metaHmac` header record appended to the meta records
contributes nothing to the bytes fed to the meta HMAC (its key is in
OUT_OF_HMAC, lines 231-236), so walking the archive again after `addMetaHmac`
reproduces the digest bytes exactly; and `addMetaHmac` fails whenever a
`metaHmac` header already exists (lines 177-179), so after one successful
call a second call always fails. -/
theorem c3_meta_hmac_stability (ks : List Nat → Nat → Nat) (hmF : List Nat → List Nat)
    (majorV minorV : Nat) (rs : List JRec) (hrs : ∀ r ∈ rs, r.WF)
    (v : List Nat) (hv : v.length < 65536) (st st2 : Pak)
    (hok : addMetaHmac ks hmF majorV minorV st = (st2, none)) :
    (parseMeta ks true true
        (jpkMagic ++ encodeJRecs (rs ++ [.header metaHmacKeyB v])) meta0).hmacInput
      = (parseMeta ks true true (jpkMagic ++ encodeJRecs rs) meta0).hmacInput
    ∧ (addMetaHmac ks hmF majorV minorV st2).2.isSome = true := by
  constructor
  · have hwf1 : ∀ r ∈ rs ++ [JRec.header metaHmacKeyB v], r.WF := by
      intro r hr
      rcases List.mem_append.mp hr with h | h
      · exact hrs r h
      · simp only [List.mem_singleton] at h
        subst h
        exact ⟨by decide, hv⟩
    rw [parseMeta_encoded ks true true _ hwf1 meta0,
      parseMeta_encoded ks true true rs hrs meta0]
    simp [applyJRecs, List.foldl_append, applyJRec]
  · exact addMetaHmac_twice ks hmF majorV minorV st st2 hok

/-- Witness for C3 at concrete inputs: an empty record list, an empty header
value, and a first `addMetaHmac` on `c3St` that succeeds. -/
theorem c3_meta_hmac_stability_witness :
    (parseMeta ks0 true true
        (jpkMagic ++ encodeJRecs (([] : List JRec) ++ [.header metaHmacKeyB []]))
        meta0).hmacInput
      = (parseMeta ks0 true true (jpkMagic ++ encodeJRecs ([] : List JRec)) meta0).hmacInput
    ∧ (addMetaHmac ks0 hm0 0 0 (addMetaHmac ks0 hm0 0 0 c3St).1).2.isSome = true :=
  c3_meta_hmac_stability ks0 hm0 0 0 [] (by simp) [] (by decide) c3St
    (addMetaHmac ks0 hm0 0 0 c3St).1 (by decide)

theorem writeAt_eof (f : List Nat) (off : Nat) (b : List Nat) (h : off = f.length) :
    writeAt f off b = f ++ b := by
  subst h
  simp [writeAt, List.drop_eq_nil_of_le]

theorem pushBytes_inv (st : Pak) (b : List Nat) (h : PakInv st) : PakInv (pushBytes st b) := by
  obtain ⟨h1, h2, h3⟩ := h
  have hfile : (pushBytes st b).file = st.file ++ b := by
    simp [pushBytes, writeAt_eof st.file st.eof b h1]
  have heof : (pushBytes st b).eof = st.eof + b.length := rfl
  refine ⟨?_, ?_, ?_⟩
  · rw [hfile, heof, h1]
    simp
  · rw [heof]
    omega
  · rw [hfile, List.take_append_eq_append_take, h3]
    have hz : 3 - st.file.length = 0 := by omega
    simp [hz]

theorem writeAt_within_inv (st : Pak) (off : Nat) (b : List Nat)
    (h : PakInv st) (hoff : 3 ≤ off) (hend : off + b.length ≤ st.eof) :
    PakInv { st with file := writeAt st.file off b } := by
  obtain ⟨h1, h2, h3⟩ := h
  have hofflen : off ≤ st.file.length := by omega
  have htl : (st.file.take off).length = off := by
    simp [List.length_take]
    omega
  refine ⟨?_, h2, ?_⟩
  · show st.eof = (writeAt st.file off b).length
    unfold writeAt
    rw [List.append_assoc]
    simp [List.length_append, htl, List.length_drop]
    omega
  · show (writeAt st.file off b).take 3 = jpkMagic
    unfold writeAt
    rw [List.append_assoc, List.take_append_eq_append_take, htl]
    have hz : 3 - off = 0 := by omega
    rw [hz]
    simp [List.take_take]
    rw [show min 3 off = 3 by omega]
    exact h3

theorem foldl_preserve {α β : Type} (P : α → Prop) (f : α → β → α)
    (h : ∀ a x, P a → P (f a x)) : ∀ (l : List β) (a : α), P a → P (l.foldl f a) := by
  intro l
  induction l with
  | nil => intro a ha; simpa using ha
  | cons x rest ih =>
    intro a ha
    simpa using ih (f a x) (h a x ha)

theorem loadPak_inv (ks : List Nat → Nat → Nat) (st : Pak) (h : PakInv st) :
    PakInv (loadPak ks st) := by
  by_cases hl : st.loaded <;> simp [loadPak, hl, PakInv] at h ⊢ <;> exact h

theorem addHeaderRecord_inv (st : Pak) (key : List Nat) (value : HVal) (h : PakInv st) :
    PakInv (addHeaderRecord st key value).1 := by
  unfold addHeaderRecord
  split
  · exact h
  · simp only [PakInv] at *
    exact pushBytes_inv _ _ (pushBytes_inv _ _ (pushBytes_inv _ _ h))

theorem seqThen_inv (r : Pak × Option String) (f : Pak → Pak × Option String)
    (hr : PakInv r.1) (hf : ∀ s, PakInv s → PakInv (f s).1) :
    PakInv (seqThen r f).1 := by
  obtain ⟨st, e⟩ := r
  cases e with
  | none => exact hf st hr
  | some e => exact hr

theorem addCoreHeaders_inv (ks : List Nat → Nat → Nat) (majorV minorV : Nat) (st : Pak)
    (h : PakInv st) : PakInv (addCoreHeaders ks majorV minorV st).1 := by
  unfold addCoreHeaders
  split
  · exact h
  · refine seqThen_inv _ _ ?_ ?_
    · exact addHeaderRecord_inv _ majorVersionKeyB (.num majorV) (loadPak_inv ks st h)
    · intro s hs
      exact addHeaderRecord_inv _ minorVersionKeyB (.num minorV) hs

theorem addHeader_inv (ks : List Nat → Nat → Nat) (majorV minorV : Nat) (st : Pak)
    (key : List Nat) (value : HVal) (internal : Bool) (h : PakInv st) :
    PakInv (addHeader ks majorV minorV st key value internal).1 := by
  unfold addHeader
  refine seqThen_inv _ _ ?_ ?_
  · split
    · exact addCoreHeaders_inv ks majorV minorV _ (loadPak_inv ks st h)
    · exact loadPak_inv ks st h
  · intro s hs
    exact addHeaderRecord_inv _ key value hs

theorem addEntryStep_inv (gzF : List Nat → List Nat) (ks : List Nat → Nat → Nat)
    (iv : List Nat) (hmF : List Nat → List Nat) (opts : AddOpts) (dbOff : Nat)
    (acc : AddAcc) (e : AddEntry) (h : AccInv dbOff acc) :
    AccInv dbOff (addEntryStep gzF ks iv hmF opts acc e) := by
  obtain ⟨h1, h2, h3⟩ := h
  unfold addEntryStep
  split
  · exact ⟨h1, h2, h3⟩
  · simp only []
    split
    · exact ⟨h1, h2, h3⟩
    · split
      · exact ⟨h1, h2, h3⟩
      · split
        · exact ⟨h1, h2, h3⟩
        · split
          · exact ⟨h1, h2, h3⟩
          · refine ⟨pushBytes_inv _ _ h1, ?_, h3⟩
            show dbOff + 5 ≤ acc.st.eof + _
            omega

theorem writeDirRecord_inv (ks : List Nat → Nat → Nat) (iv : List Nat) (st : Pak)
    (k : List Nat) (h : PakInv st) : PakInv (writeDirRecord ks iv st k) := by
  unfold writeDirRecord
  split
  · exact h
  · exact pushBytes_inv _ _ (pushBytes_inv _ _ h)

theorem writeIndexRecord_inv (ks : List Nat → Nat → Nat) (iv : List Nat) (st : Pak)
    (k : List Nat) (h : PakInv st) : PakInv (writeIndexRecord ks iv st k) := by
  unfold writeIndexRecord
  split
  · exact h
  · exact pushBytes_inv _ _ (pushBytes_inv _ _ h)

theorem addBody_inv (gzF : List Nat → List Nat) (ks : List Nat → Nat → Nat)
    (iv : List Nat) (hmF : List Nat → List Nat) (files : List AddEntry)
    (opts : AddOpts) (st2 : Pak) (h : PakInv st2) :
    PakInv (addBody gzF ks iv hmF files opts st2).1 := by
  unfold addBody
  have h3 : PakInv (pushBytes st2 (FLAG_TYPE_DATABLOCK :: u32be 0)) :=
    pushBytes_inv _ _ h
  set acc := files.foldl (addEntryStep gzF ks iv hmF opts)
    { st := pushBytes st2 (FLAG_TYPE_DATABLOCK :: u32be 0), keys := [],
      dirKeys := [], dbSize := 0, err := none } with haccd
  have hacc : AccInv st2.eof acc := by
    refine foldl_preserve (AccInv st2.eof) _
      (fun a x ha => addEntryStep_inv gzF ks iv hmF opts st2.eof a x ha) files _ ?_
    refine ⟨h3, ?_, h.2.1⟩
    simp [pushBytes]
  obtain ⟨ha1, ha2, ha3⟩ := hacc
  simp only []
  split
  · exact ha1
  · have h4 := writeAt_within_inv acc.st st2.eof
      (FLAG_TYPE_DATABLOCK :: u32be acc.dbSize) ha1 ha3 (by simpa using ha2)
    refine foldl_preserve PakInv _
      (fun a x hx => writeIndexRecord_inv ks iv a x hx) _ _ ?_
    refine foldl_preserve PakInv _
      (fun a x hx => writeDirRecord_inv ks iv a x hx) _ _ ?_
    exact h4

theorem add_inv (gzF : List Nat → List Nat) (ks : List Nat → Nat → Nat) (iv : List Nat)
    (hmF : List Nat → List Nat) (majorV minorV : Nat) (st : Pak)
    (files : List AddEntry) (opts : AddOpts) (h : PakInv st) :
    PakInv (add gzF ks iv hmF majorV minorV st files opts).1 := by
  unfold add
  refine seqThen_inv _ _ ?_ ?_
  · split
    · exact addCoreHeaders_inv ks majorV minorV _ (loadPak_inv ks st h)
    · exact loadPak_inv ks st h
  · intro s hs
    split
    · exact hs
    · exact addBody_inv gzF ks iv hmF files opts s hs

theorem runOp_inv (gzF : List Nat → List Nat) (ks : List Nat → Nat → Nat) (iv : List Nat)
    (hmF : List Nat → List Nat) (majorV minorV : Nat) (st : Pak) (op : JOp)
    (h : PakInv st) : PakInv (runOp gzF ks iv hmF majorV minorV st op) := by
  cases op with
  | opHeader key value => exact addHeader_inv ks majorV minorV st key value false h
  | opAdd files opts => exact add_inv gzF ks iv hmF majorV minorV st files opts h

/-- C8: confirmed — after any sequence of `add` and `addHeader` calls on a new
archive, the first three bytes of the file are the ASCII characters "JPK" and
the EOF pointer stays at least 3: every record write happens at the EOF
pointer or (for the datablock prelude rewrite) at an offset ≥ 3 inside the
file, so the magic is never overwritten. -/
theorem c8_magic_preserved (gzF : List Nat → List Nat) (ks : List Nat → Nat → Nat)
    (iv : List Nat) (hmF : List Nat → List Nat) (majorV minorV : Nat) (ops : List JOp) :
    (runOps gzF ks iv hmF majorV minorV freshPak ops).file.take 3 = jpkMagic
    ∧ 3 ≤ (runOps gzF ks iv hmF majorV minorV freshPak ops).eof := by
  have h : PakInv (runOps gzF ks iv hmF majorV minorV freshPak ops) := by
    refine foldl_preserve PakInv _
      (fun a x ha => runOp_inv gzF ks iv hmF majorV minorV a x ha) ops freshPak ?_
    exact ⟨rfl, by decide, rfl⟩
  exact ⟨h.2.2, h.2.1⟩

/-- C2: refuted — `path.join` normalises the key before the checks run, so a
key containing "../" escapes the target directory.  With target "out" and
key "../evil", `filePath` is "evil" and `fileDir` is ".", which is neither
absolute nor contains "../" or "~/"; the entry is not skipped, and the file
is written at "evil", outside "out".  (The basename check can never fire
because `fileName` is never assigned.) -/
theorem c2_extract_path_traversal :
    extractIndexGuard "out".toList "../evil".toList = (true, "evil".toList)
    ∧ withinDir "out".toList "evil".toList = false := by
  exact ⟨by decide, by decide⟩

end JsPak
